import Mathlib

/-!
Verification of the Rayforce bridge (`src-tauri/src/bridge.rs`) against its
natural-language specification.

The bridge serializes all interaction with the non-thread-safe Rayforce engine
onto one dedicated worker thread.  The worker keeps a handle table
(`HashMap<u64, ObjP>`), a monotone `next_handle : u64` counter and a set of
cancelled query ids, and processes five commands: Execute, GetRows, Release,
Cancel and Shutdown.

Shallow embedding conventions:
* Engine values (`ObjP` / `struct obj_t`) become the inductive `RayObj`.
  The engine itself is an external collaborator reached through
  `eval_str`, `at_idx`, `at_sym`, `ray_key`, `ray_value`, `drop_obj`; its
  primitive accessors are modelled as total Lean functions on `RayObj`, and the
  result of `eval_str` is carried inside the `execute` command so that theorems
  quantify over every possible engine reply.
* `i64`/`u64` payloads become `Int`/`Nat`; an `f64` payload is carried as its
  bit pattern (an `Int`) since the bridge never performs float arithmetic,
  it only copies values into JSON.
* `serde_json::Value` becomes the inductive `Json`; a `Row`
  (`HashMap<String, Value>`) becomes an association list in insertion order.
* `drop_obj` calls are recorded in order in the ghost field
  `WorkerState.released`, so that release-exactly-once claims are statable.
* `u64` overflow of `next_handle += 1` is modelled by `% 2 ^ 64`
  (release-profile wrapping arithmetic).
-/

namespace Raylens

/-- Payload of one primitive engine element. `i` covers the integer-like tags
(booleans, ints, date, time, timestamp), `f` is an f64 carried as its bit
pattern, `s` is an interned symbol (the `id` is the pointer value that
`as_i64` reads, `str` the interned text), `c` is a c8 character. -/
inductive Elem : Type where
  | i (v : Int)
  | f (bits : Int)
  | s (id : Int) (str : String)
  | c (ch : Char)

/-- Engine value (`struct obj_t` behind an `ObjP`), organised by the runtime
type tag the bridge dispatches on: negative tags are atoms, 1–12 are primitive
vectors, 0 is a generic list, 98 a table, 99 a dict, 126 null, 127 an error.
A table's `tlen` models its raw `len` union field (only read by the
table summary arm of `obj_to_json`); its `keys`/`vals` are what the engine's
`ray_key`/`ray_value` return.  An error object is modelled as carrying the
object that the engine's `at_sym(obj, "msg", 3)` returns for it. -/
inductive RayObj : Type where
  | atom (t : Int) (e : Elem)
  | vec (t : Int) (elems : List Elem)
  | list (elems : List RayObj)
  | table (tlen : Int) (keys vals : RayObj)
  | dict (keys vals : RayObj)
  | nullObj
  | errObj (msg : RayObj)
  | other (t : Int)

/-- The runtime type tag (`obj.type_`). -/
def typeOf : RayObj → Int
  | .atom t _ => t
  | .vec t _ => t
  | .list _ => 0
  | .table _ _ _ => 98
  | .dict _ _ => 99
  | .nullObj => 126
  | .errObj _ => 127
  | .other t => t

/-- The eight payload bytes of an element, as read through `as_i64`/`as_f64`
(both read the same union slot; only the JSON constructor chosen differs). -/
def payloadBits : Elem → Int
  | .i v => v
  | .f bits => bits
  | .s id _ => id
  | .c ch => (ch.toNat : Int)

/-- The `len` union field as the bridge reads it (`obj.len() as u64`/`usize`).
Meaningful for vectors and lists; reading it on other objects is unspecified in
the engine and modelled as 0 (for a table, as its `tlen` field). -/
def lenOf : RayObj → Nat
  | .vec _ es => es.length
  | .list es => es.length
  | .table tlen _ _ => tlen.toNat
  | _ => 0

/-- The inline element buffer (`obj.data_ptr::<T>()`), defined for vectors. -/
def elemsOf : RayObj → List Elem
  | .vec _ es => es
  | _ => []

/-- Scalar payload read through `obj.as_i64()` (same bytes as `as_f64`). -/
def as_i64 : RayObj → Int
  | .atom _ e => payloadBits e
  | _ => 0

/-- Engine primitive `at_idx(obj, idx)`: element of a vector or list, `none`
models a null `ObjP`.  Indexing a primitive vector materializes the element as
an atom of the corresponding negative tag. -/
def at_idx : RayObj → Int → Option RayObj
  | .vec t es, idx =>
      if 0 ≤ idx then (es[idx.toNat]?).map (fun e => RayObj.atom (-t) e) else none
  | .list es, idx =>
      if 0 ≤ idx then es[idx.toNat]? else none
  | _, _ => none

/-- Engine primitive `ray_key(obj)`: the key vector of a table or dict. -/
def ray_key : RayObj → Option RayObj
  | .table _ k _ => some k
  | .dict k _ => some k
  | _ => none

/-- Engine primitive `ray_value(obj)`: the value vector of a table or dict. -/
def ray_value : RayObj → Option RayObj
  | .table _ _ v => some v
  | .dict _ v => some v
  | _ => none

/-- Engine primitive `at_sym(obj, name, len)`, modelled for the one call site
the bridge has: looking up the `"msg"` field of an error object. -/
def at_sym (o : RayObj) (name : String) : Option RayObj :=
  match o with
  | .errObj m => if name = "msg" then some m else none
  | _ => none

/-- A generic JSON value (`serde_json::Value`).  Integral numbers are `num`,
f64 numbers are `fnum` and carry the bit pattern of the float. -/
inductive Json : Type where
  | null
  | bool (b : Bool)
  | num (v : Int)
  | fnum (bits : Int)
  | str (s : String)
  | arr (elems : List Json)
  | obj (fields : List (String × Json))

/-- A row: `HashMap<String, serde_json::Value>`, modelled as an association
list in insertion order. -/
def Row : Type := List (String × Json)

/-- A c8 byte as the bridge reinterprets it into a character.  A genuine c8
element is its character; reading the buffer of a non-character element is a
raw byte reinterpretation, modelled from the low payload byte. -/
def elemChar : Elem → Char
  | .c ch => ch
  | e => Char.ofNat ((payloadBits e).toNat % 256)

/-- `symbol_to_string` from bridge.rs.  For a symbol atom (tag −6) the source
deliberately does not decode the interned buffer: its comment reads "Symbol
data is stored differently — use eval to convert.  For now, use a simple
index-based name", and it returns `format!("col_{}", obj.as_i64())`.  C8
strings (tag 12 / −12) are decoded from the data buffer (UTF-8 lossy decoding
of the byte buffer is modelled at character level).  Anything else yields
`format!("col_{}", type_)`.  A null pointer argument yields the empty
string. -/
def symbol_to_string (o? : Option RayObj) : String :=
  match o? with
  | none => ""
  | some o =>
      if typeOf o = -6 then
        "col_" ++ toString (as_i64 o)
      else if typeOf o = 12 ∨ typeOf o = -12 then
        match o with
        | .vec _ es => if es.length = 0 then "" else String.mk (es.map elemChar)
        | .atom _ e => String.mk [elemChar e]
        | _ => ""
      else
        "col_" ++ toString (typeOf o)

/-- `extract_error_message` from bridge.rs: best-effort extraction of the
`"msg"` field of an error object; the message is decoded only when it is a c8
vector (tag 12), otherwise the generic `"Query execution error"` is returned;
a null error object yields `"Unknown error"`. -/
def extract_error_message (o? : Option RayObj) : String :=
  match o? with
  | none => "Unknown error"
  | some o =>
      match at_sym o "msg" with
      | some m => if typeOf m = 12 then symbol_to_string (some m) else "Query execution error"
      | none => "Query execution error"

/-- The scalar arms of `obj_to_json` (the conversion applied to an atom of tag
`t`): boolean, integer, symbol, date, time/timestamp, float, char, and the
diagnostic catch-all `{"type": t}` for unrecognized tags. -/
def scalar_json (t : Int) (e : Elem) : Json :=
  if t = -1 then .bool (payloadBits e != 0)
  else if t = -2 ∨ t = -3 ∨ t = -4 ∨ t = -5 then .num (payloadBits e)
  else if t = -6 then .str (symbol_to_string (some (.atom t e)))
  else if t = -7 then .num (payloadBits e)
  else if t = -8 ∨ t = -9 then .num (payloadBits e)
  else if t = -10 then .fnum (payloadBits e)
  else if t = -12 then .str (String.mk [Char.ofNat ((payloadBits e).toNat % 256)])
  else .obj [("type", .num t)]

mutual

/-- `obj_to_json` from bridge.rs: recursive tag dispatch into a `Json` tree.
A primitive vector's elements are read through `at_idx`, which materializes
atoms of tag `-t`; here that composition is written as `scalar_json (-t)`
(`obj_to_json_at_idx_vec` below proves it equal to the source's
`obj_to_json(at_idx(obj, i))` call shape).  A table converts to the summary
object `{"type": "table", "rows": len}`, a dict to the object built by
`dict_row`, an error to `{"error": msg}`, null to JSON null, and an
unrecognized tag to the diagnostic `{"type": t}`. -/
def obj_to_json : Option RayObj → Except String Json
  | none => .ok .null
  | some o =>
      match o with
      | .atom t e => .ok (scalar_json t e)
      | .vec t es => .ok (.arr (es.map (fun e => scalar_json (-t) e)))
      | .list es => do
          let xs ← obj_to_json_list es
          .ok (.arr xs)
      | .table tlen _ _ => .ok (.obj [("type", .str "table"), ("rows", .num tlen)])
      | .dict k v => do
          let row ← dict_row k v
          .ok (.obj row)
      | .nullObj => .ok .null
      | .errObj m => .ok (.obj [("error", .str (extract_error_message (some (.errObj m))))])
      | .other t => .ok (.obj [("type", .num t)])
termination_by o? => sizeOf o?
decreasing_by
  all_goals simp_wf
  all_goals omega

/-- Elementwise conversion of a generic list's members. -/
def obj_to_json_list : List RayObj → Except String (List Json)
  | [] => .ok []
  | o :: os => do
      let x ← obj_to_json (some o)
      let xs ← obj_to_json_list os
      .ok (x :: xs)
termination_by os => sizeOf os
decreasing_by
  all_goals simp_wf
  all_goals (have hpos : 0 < sizeOf os := by cases os <;> simp_arith
             omega)

/-- The values of a dict, converted in order: `obj_to_json(at_idx(values, i))`
for each index.  A list value-vector converts its members recursively, a
primitive value-vector converts through the scalar arms, and on any other
shape `at_idx` is null for every index, so nothing is produced (the caller
pads with JSON null, matching `obj_to_json` of a null pointer). -/
def dict_vals : RayObj → Except String (List Json)
  | .list es => obj_to_json_list es
  | .vec t es => .ok (es.map (fun e => scalar_json (-t) e))
  | _ => .ok []
termination_by v => sizeOf v
decreasing_by
  all_goals simp_wf

/-- `dict_to_row` from bridge.rs, after its `ray_key`/`ray_value` null checks:
enumerate `keys.len()` keys, name each through `symbol_to_string`, and pair it
with the converted value at the same index. -/
def dict_row (k v : RayObj) : Except String Row := do
  let vs ← dict_vals v
  .ok ((List.range (lenOf k)).map (fun idx =>
    (symbol_to_string (at_idx k (Int.ofNat idx)), vs.getD idx .null)))
termination_by sizeOf v + 1
decreasing_by
  all_goals simp_wf

end

/-- `dict_to_row` from bridge.rs: fetch `ray_key`/`ray_value`, returning an
empty row when either is null. -/
def dict_to_row (o : RayObj) : Except String Row :=
  match ray_key o, ray_value o with
  | some k, some v => dict_row k v
  | _, _ => .ok []

/-- The I64 fast path of `get_rows_impl`'s vector arm (tag 5): `k` rows read
directly from the inline element buffer starting at index `idx`, each row a
single `"value"` field holding `serde_json::json!(val)` for the `i64` read. -/
def fast_rows_i64 (es : List Elem) : Nat → Nat → List Row
  | _, 0 => []
  | idx, k + 1 =>
      [("value", Json.num (payloadBits (es.getD idx (.i 0))))] ::
        fast_rows_i64 es (idx + 1) k

/-- The F64 fast path of `get_rows_impl`'s vector arm (tag 10): like
`fast_rows_i64` but the buffer is read as `f64`, producing float JSON. -/
def fast_rows_f64 (es : List Elem) : Nat → Nat → List Row
  | _, 0 => []
  | idx, k + 1 =>
      [("value", Json.fnum (payloadBits (es.getD idx (.i 0))))] ::
        fast_rows_f64 es (idx + 1) k

/-- The generic per-index path of `get_rows_impl`'s vector arm (every tag
other than 5 and 10): `k` rows fetched through `at_idx` starting at index
`idx`, each converted by `obj_to_json`. -/
def rows_generic (o : RayObj) : Nat → Nat → Except String (List Row)
  | _, 0 => .ok []
  | idx, k + 1 => do
      let v ← obj_to_json (at_idx o (Int.ofNat idx))
      let rest ← rows_generic o (idx + 1) k
      .ok ([("value", v)] :: rest)

/-- The vector/list arm of `get_rows_impl` (tags 0–12): clamp the window to
`min(count, len.saturating_sub(start))` rows, then use the direct-buffer fast
path for tags 5 and 10 and the generic `at_idx` path for every other tag. -/
def vec_rows (o : RayObj) (t : Int) (start count : Nat) : Except String (List Row) :=
  let total := lenOf o
  let actual := min count (total - start)
  if t = 5 then .ok (fast_rows_i64 (elemsOf o) start actual)
  else if t = 10 then .ok (fast_rows_f64 (elemsOf o) start actual)
  else rows_generic o start actual

/-- One table row: for each column index in order, fetch the column vector
from the value list (a null column vector is skipped), index the row element
out of it, convert it, and record it under the column's name. -/
def table_cells (vals : RayObj) (idx : Nat) : List String → Nat → Except String Row
  | [], _ => .ok []
  | name :: rest, colIdx =>
      match at_idx vals (Int.ofNat colIdx) with
      | none => table_cells vals idx rest (colIdx + 1)
      | some colVec => do
          let v ← obj_to_json (at_idx colVec (Int.ofNat idx))
          let tail ← table_cells vals idx rest (colIdx + 1)
          .ok ((name, v) :: tail)

/-- The row loop of `get_table_rows`: `k` rows starting at row index `idx`. -/
def table_rows_from (vals : RayObj) (names : List String) : Nat → Nat → Except String (List Row)
  | _, 0 => .ok []
  | idx, k + 1 => do
      let row ← table_cells vals idx names 0
      let rest ← table_rows_from vals names (idx + 1) k
      .ok (row :: rest)

/-- `get_table_rows` from bridge.rs: null keys or values yield no rows; column
names are read from the key vector (without a per-name null check, unlike
`extract_table_meta`); the row count is clamped against the first column's
length (a null first column yields no rows); then rows are assembled column by
column. -/
def get_table_rows (o : RayObj) (start count : Nat) : Except String (List Row) :=
  match ray_key o, ray_value o with
  | some keys, some vals =>
      let col_names := (List.range (lenOf keys)).map
        (fun idx => symbol_to_string (at_idx keys (Int.ofNat idx)))
      match at_idx vals 0 with
      | none => .ok []
      | some firstCol =>
          let total := lenOf firstCol
          let actual := min count (total - start)
          table_rows_from vals col_names start actual
  | _, _ => .ok []

/-- Lookup in the worker's handle table (`HashMap<u64, ObjP>`), modelled as an
association list with map semantics. -/
def tblLookup (k : Nat) : List (Nat × RayObj) → Option RayObj
  | [] => none
  | kv :: rest => if kv.1 = k then some kv.2 else tblLookup k rest

/-- `HashMap::remove`: the key is absent afterwards. -/
def tblRemove (k : Nat) (t : List (Nat × RayObj)) : List (Nat × RayObj) :=
  t.filter (fun kv => kv.1 != k)

/-- `HashMap::insert`: any previous entry for the key is replaced (its value
is returned to the caller, which the bridge discards without dropping it). -/
def tblInsert (k : Nat) (v : RayObj) (t : List (Nat × RayObj)) : List (Nat × RayObj) :=
  (k, v) :: tblRemove k t

/-- `get_rows_impl` from bridge.rs.  An absent handle fails with
`Invalid handle`; otherwise dispatch on the held value's tag: scalars and
dicts produce one row only at `start = 0`, vectors and lists go through
`vec_rows`, tables through `get_table_rows`, and any other tag fails with
`Unsupported type`. -/
def get_rows_impl (handle start count : Nat) (handles : List (Nat × RayObj)) :
    Except String (List Row) :=
  match tblLookup handle handles with
  | none => .error ("Invalid handle: " ++ toString handle)
  | some o =>
      let t := typeOf o
      if t < 0 then
        if start > 0 then .ok []
        else do
          let v ← obj_to_json (some o)
          .ok [[("value", v)]]
      else if 0 ≤ t ∧ t ≤ 12 then
        vec_rows o t start count
      else if t = 98 then
        get_table_rows o start count
      else if t = 99 then
        if start > 0 then .ok []
        else do
          let row ← dict_to_row o
          .ok [row]
      else .error ("Unsupported type: " ++ toString t)

/-- Metadata about a query result (`QueryMeta`). -/
structure QueryMeta : Type where
  handle : Nat
  columns : List String
  column_types : List (String × String)
  row_count : Nat
  result_type : String

/-- The `result_type` string computed by `extract_query_meta`. -/
def result_type_of (t : Int) : String :=
  if t = 98 then "table"
  else if t = 127 then "error"
  else if t = 99 then "dict"
  else if t = 0 then "list"
  else if t < 0 then "scalar"
  else if 1 ≤ t ∧ t ≤ 12 then "vector"
  else "unknown"

/-- `extract_table_meta` from bridge.rs: column names from the key vector
(null entries skipped here, unlike in `get_table_rows`), no column types, row
count from the first value column when it is a vector or list, else 0. -/
def extract_table_meta (o : RayObj) : List String × List (String × String) × Nat :=
  match ray_key o with
  | none => ([], [], 0)
  | some keys =>
      let cols := (List.range (lenOf keys)).filterMap
        (fun idx => (at_idx keys (Int.ofNat idx)).map (fun s => symbol_to_string (some s)))
      let rc :=
        match ray_value o with
        | none => 0
        | some vals =>
            match at_idx vals 0 with
            | none => 0
            | some firstCol =>
                if 0 ≤ typeOf firstCol ∧ typeOf firstCol ≤ 12 then lenOf firstCol else 0
      (cols, [], rc)

/-- `extract_dict_meta` from bridge.rs: key names from the key vector, one
synthetic row. -/
def extract_dict_meta (o : RayObj) : List String × List (String × String) × Nat :=
  match ray_key o with
  | none => ([], [], 0)
  | some keys =>
      let cols := (List.range (lenOf keys)).filterMap
        (fun idx => (at_idx keys (Int.ofNat idx)).map (fun s => symbol_to_string (some s)))
      (cols, [], 1)

/-- `extract_query_meta` from bridge.rs: the result type name and the
per-tag columns/types/row-count triple. -/
def extract_query_meta (handle : Nat) (o : RayObj) : Except String QueryMeta :=
  let t := typeOf o
  let ctr :=
    if t = 98 then extract_table_meta o
    else if t = 99 then extract_dict_meta o
    else if t < 0 then (["value"], ([], 1))
    else if 0 ≤ t ∧ t ≤ 12 then (["value"], ([], lenOf o))
    else ([], ([], 0))
  .ok { handle := handle, columns := ctr.1, column_types := ctr.2.1,
        row_count := ctr.2.2, result_type := result_type_of t }

/-- `CString::new(code)` fails exactly when the source text contains an
embedded nul byte. -/
def hasNul (code : String) : Bool := code.data.contains (Char.ofNat 0)

/-- `execute_query_impl` from bridge.rs, as a function of the engine's reply
to `eval_str` (`none` models a null result).  Returns the command's result,
the updated handle table, the updated `next_handle` counter (u64 wrapping
increment), and the list of `drop_obj` calls performed.  An error-tagged
result is dropped and reported without allocating a handle; otherwise the next
handle id is issued, the value is stored, and metadata is extracted. -/
def execute_query_impl (code : String) (evalResult : Option RayObj)
    (handles : List (Nat × RayObj)) (next : Nat) :
    Except String QueryMeta × List (Nat × RayObj) × Nat × List RayObj :=
  if hasNul code then
    (.error "Invalid query string: nul byte found", handles, next, [])
  else
    match evalResult with
    | none => (.error "Query returned null", handles, next, [])
    | some o =>
        if typeOf o = 127 then
          (.error (extract_error_message (some o)), handles, next, [o])
        else
          match extract_query_meta next o with
          | .ok meta => (.ok meta, tblInsert next o handles, (next + 1) % 2 ^ 64, [])
          | .error e => (.error e, tblInsert next o handles, (next + 1) % 2 ^ 64, [])

/-- A command on the worker's channel (`RayCommand`).  The `execute` command
carries, besides the query id and source text, the engine's reply to
`eval_str(code)`: the engine is an external collaborator, so the worker's
behaviour is specified for every possible reply. -/
inductive RayCmd : Type where
  | execute (query_id : String) (code : String) (evalResult : Option RayObj)
  | getRows (handle start count : Nat)
  | release (handle : Nat)
  | cancel (query_id : String)
  | shutdown

/-- A response sent back on a command's one-shot channel (Release, Cancel and
Shutdown are fire-and-forget and send none). -/
inductive RayResp : Type where
  | queryResult (r : Except String QueryMeta)
  | rows (r : Except String (List Row))

/-- Worker-side state of `rayforce_thread_main`: the handle table, the
`next_handle` counter, the cancelled-id set, plus two ghost observables: the
ordered list of `drop_obj` calls made so far, and whether `ray_clean` has torn
the engine runtime down. -/
structure WorkerState : Type where
  handles : List (Nat × RayObj)
  nextHandle : Nat
  cancelled : List String
  released : List RayObj
  engineDown : Bool

/-- Worker state right after `ray_init`: empty table, `next_handle = 1`,
nothing cancelled. -/
def initState : WorkerState :=
  { handles := [], nextHandle := 1, cancelled := [], released := [], engineDown := false }

/-- `HashSet::insert` on the cancelled-id set. -/
def setInsert (qid : String) (s : List String) : List String :=
  if s.contains qid then s else qid :: s

/-- One iteration of the worker's command loop, for the four non-Shutdown
commands (Shutdown is handled by `runLoop`).  Execute first consumes a
pending cancellation (`cancelled.remove`) and answers `Query cancelled`
without evaluating; otherwise it runs `execute_query_impl`.  GetRows answers
from `get_rows_impl` without touching the state.  Release drops and removes
the handle's value if present, and is a no-op otherwise.  Cancel inserts the
id into the cancelled set. -/
def step (s : WorkerState) : RayCmd → WorkerState × Option RayResp
  | .execute qid code evalResult =>
      if s.cancelled.contains qid then
        ({ s with cancelled := s.cancelled.erase qid },
         some (.queryResult (.error "Query cancelled")))
      else
        match execute_query_impl code evalResult s.handles s.nextHandle with
        | (r, hh, nn, dropped) =>
            ({ s with handles := hh, nextHandle := nn, released := s.released ++ dropped },
             some (.queryResult r))
  | .getRows handle start count =>
      (s, some (.rows (get_rows_impl handle start count s.handles)))
  | .release handle =>
      match tblLookup handle s.handles with
      | some o =>
          ({ s with handles := tblRemove handle s.handles, released := s.released ++ [o] },
           none)
      | none => (s, none)
  | .cancel qid => ({ s with cancelled := setInsert qid s.cancelled }, none)
  | .shutdown => (s, none)

/-- The cleanup path at the bottom of `rayforce_thread_main`: every handle
still in the table is drained and dropped, then `ray_clean` tears the engine
runtime down. -/
def finalizeWorker (s : WorkerState) : WorkerState :=
  { s with handles := [],
           released := s.released ++ s.handles.map Prod.snd,
           engineDown := true }

/-- The worker's command loop: process commands in channel order, stop at
Shutdown (commands queued after it are never processed) or when the channel
closes (the command list is exhausted), then run the cleanup path.  Returns
the final worker state and the responses sent, in order. -/
def runLoop (s : WorkerState) : List RayCmd → WorkerState × List RayResp
  | [] => (finalizeWorker s, [])
  | RayCmd.shutdown :: _ => (finalizeWorker s, [])
  | c :: cs =>
      match step s c with
      | (ss, r?) =>
          match runLoop ss cs with
          | (fin, rs) => (fin, r?.toList ++ rs)

/-- Handles issued over a run: the `handle` fields of the successful Execute
responses, in response order. -/
def handlesIssued (rs : List RayResp) : List Nat :=
  rs.filterMap (fun r =>
    match r with
    | .queryResult (.ok meta) => some meta.handle
    | _ => none)

/-- Number of Execute commands in a trace. -/
def countExecutes : List RayCmd → Nat
  | [] => 0
  | .execute _ _ _ :: cs => countExecutes cs + 1
  | _ :: cs => countExecutes cs

/-- Caller-side lifecycle state of `RayforceBridge`: the atomic `running`
flag, and whether the command receiver has been taken out of its protected
slot (it is taken exactly once, when the worker thread is spawned). -/
structure BridgeState : Type where
  running : Bool
  rxTaken : Bool

/-- A freshly constructed bridge (`RayforceBridge::new`). -/
def initBridge : BridgeState := { running := false, rxTaken := false }

/-- What one call to `RayforceBridge::start` does. -/
inductive StartOutcome : Type where
  | noop
  | spawned
  | panicked

/-- `RayforceBridge::start`: `running.swap(true)` returns the old flag; if the
bridge was already running the call returns immediately (a no-op).  Otherwise
the receiver is taken from its slot; if it was already consumed the
`.expect("start() called but receiver already taken")` fails fast, else the
worker thread is spawned with it. -/
def startStep (b : BridgeState) : BridgeState × StartOutcome :=
  if b.running then (b, .noop)
  else if b.rxTaken then ({ b with running := true }, .panicked)
  else ({ running := true, rxTaken := true }, .spawned)

/-- `RayforceBridge::shutdown`: sends Shutdown and clears the running flag
(the receiver, once taken, is never put back). -/
def shutdownStep (b : BridgeState) : BridgeState := { b with running := false }

/-- The row count the amended clamp claim predicts for `GetRows(h, start,
count)` on a held value, written from the amended claim's words for comparison
with `get_rows_impl`.  For a vector or list (L = element count) and for a
table whose first value column is a vector or list (L = that column's length,
0 when the table has no first column), the count is `min(count, L − start)`
(Nat subtraction is saturating, so a `start` past the end yields 0 rows).  For
a scalar or a dict the code returns one row exactly when `start = 0`,
independent of `count`.  `none` marks shapes the claim does not cover. -/
def amended_row_count (o : RayObj) (start count : Nat) : Option Nat :=
  match o with
  | .atom t _ => if t < 0 then some (if start = 0 then 1 else 0) else none
  | .vec t es => if 0 ≤ t ∧ t ≤ 12 then some (min count (es.length - start)) else none
  | .list es => some (min count (es.length - start))
  | .table _ _ vals =>
      (match at_idx vals 0 with
       | some firstCol =>
           if 0 ≤ typeOf firstCol ∧ typeOf firstCol ≤ 12 then
             some (min count (lenOf firstCol - start))
           else none
       | none => some 0)
  | .dict _ _ => some (if start = 0 then 1 else 0)
  | _ => none

/-- Modelled from the spec: "symbol atomic tag → decoded string leaf
(length-prefixed buffer, UTF-8 with lossy replacement on invalid bytes — never
fails)".  The engine's interned, length-prefixed symbol buffer is carried in
the model as the already-decoded `str` field of a symbol element, so the
spec's decoding is exactly that string. -/
def spec_symbol_decode : Elem → String
  | .s _ str => str
  | _ => ""

/-- Indexing a primitive vector in range materializes an atom of tag `-t`. -/
theorem at_idx_vec (t : Int) (es : List Elem) (idx : Nat) (h : idx < es.length) :
    at_idx (.vec t es) (Int.ofNat idx) = some (.atom (-t) (es.getD idx (.i 0))) := by
  simp [at_idx, List.getElem?_eq_getElem h, List.getD_eq_getElem?_getD]

/-- Indexing a primitive vector out of range yields a null pointer. -/
theorem at_idx_vec_oob (t : Int) (es : List Elem) (idx : Nat) (h : es.length ≤ idx) :
    at_idx (.vec t es) (Int.ofNat idx) = none := by
  simp [at_idx, List.getElem?_eq_none h]

/-- Binding an `Ok` value in the `Except` monad applies the continuation. -/
theorem exceptBind_ok {α β : Type} (a : α) (f : α → Except String β) :
    ((.ok a : Except String α) >>= f) = f a := rfl

/-- Unfolding lemma: conversion of a null pointer. -/
theorem obj_to_json_none : obj_to_json none = .ok .null := by
  simp [obj_to_json]

/-- Unfolding lemma: conversion of an atom. -/
theorem obj_to_json_atom (t : Int) (e : Elem) :
    obj_to_json (some (.atom t e)) = .ok (scalar_json t e) := by
  simp [obj_to_json]

/-- Unfolding lemma: conversion of a primitive vector. -/
theorem obj_to_json_vec (t : Int) (es : List Elem) :
    obj_to_json (some (.vec t es)) = .ok (.arr (es.map (fun e => scalar_json (-t) e))) := by
  simp [obj_to_json]

/-- Unfolding lemma: conversion of a generic list. -/
theorem obj_to_json_listObj (es : List RayObj) :
    obj_to_json (some (.list es)) = (obj_to_json_list es) >>= (fun xs => .ok (.arr xs)) := by
  simp [obj_to_json]

/-- Unfolding lemma: conversion of a dict. -/
theorem obj_to_json_dict (k v : RayObj) :
    obj_to_json (some (.dict k v)) = (dict_row k v) >>= (fun row => .ok (.obj row)) := by
  simp [obj_to_json]

/-- Unfolding lemma: conversion of a cons cell of a generic list. -/
theorem obj_to_json_list_cons (o : RayObj) (os : List RayObj) :
    obj_to_json_list (o :: os) =
      (obj_to_json (some o)) >>= (fun x =>
        (obj_to_json_list os) >>= (fun xs => .ok (x :: xs))) := by
  simp [obj_to_json_list]

/-- Unfolding lemma: the row built from a dict's keys and values. -/
theorem dict_row_eq (k v : RayObj) :
    dict_row k v = (dict_vals v) >>= (fun vs =>
      .ok ((List.range (lenOf k)).map (fun idx =>
        (symbol_to_string (at_idx k (Int.ofNat idx)), vs.getD idx .null)))) := by
  simp [dict_row]

/-- The source's vector conversion shape: `obj_to_json(at_idx(obj, i))` on an
in-range index of a primitive vector is exactly the scalar conversion of the
materialized atom. -/
theorem obj_to_json_at_idx_vec (t : Int) (es : List Elem) (idx : Nat) (h : idx < es.length) :
    obj_to_json (at_idx (.vec t es) (Int.ofNat idx)) =
      .ok (scalar_json (-t) (es.getD idx (.i 0))) := by
  rw [at_idx_vec t es idx h, obj_to_json_atom]

/-- The conversion of any engine value never takes the error branch: every
arm of `obj_to_json` (and of the dict/list helpers it relies on) is `Ok`. -/
theorem obj_to_json_ok : ∀ o? : Option RayObj, ∃ j, obj_to_json o? = .ok j := by
  suffices H : ∀ n, ∀ o : RayObj, sizeOf o ≤ n → ∃ j, obj_to_json (some o) = .ok j by
    intro o?
    match o? with
    | none => exact ⟨.null, obj_to_json_none⟩
    | some o => exact H (sizeOf o) o le_rfl
  have listStep : ∀ es : List RayObj,
      (∀ o ∈ es, ∃ j, obj_to_json (some o) = .ok j) →
      ∃ js, obj_to_json_list es = .ok js := by
    intro es
    induction es with
    | nil => exact fun _ => ⟨[], by simp [obj_to_json_list]⟩
    | cons o os ih =>
        intro hmem
        obtain ⟨j, hj⟩ := hmem o (by simp)
        obtain ⟨js, hjs⟩ := ih (fun x hx => hmem x (by simp [hx]))
        exact ⟨j :: js, by rw [obj_to_json_list_cons, hj, exceptBind_ok, hjs, exceptBind_ok]⟩
  intro n
  induction n with
  | zero =>
      intro o h
      exfalso
      cases o <;> simp_arith at h
  | succ n ih =>
      intro o h
      cases o with
      | atom t e => exact ⟨scalar_json t e, obj_to_json_atom t e⟩
      | vec t es => exact ⟨.arr (es.map (fun e => scalar_json (-t) e)), obj_to_json_vec t es⟩
      | list es =>
          obtain ⟨js, hjs⟩ := listStep es (by
            intro x hx
            refine ih x ?_
            have hlt := List.sizeOf_lt_of_mem hx
            have hsz : sizeOf (RayObj.list es) ≤ n + 1 := h
            simp_arith at hsz
            omega)
          exact ⟨.arr js, by rw [obj_to_json_listObj, hjs, exceptBind_ok]⟩
      | table tlen k v =>
          exact ⟨.obj [("type", .str "table"), ("rows", .num tlen)], by simp [obj_to_json]⟩
      | dict k v =>
          have hvals : ∃ js, dict_vals v = .ok js := by
            cases v with
            | list es =>
                have hl := listStep es (by
                  intro x hx
                  refine ih x ?_
                  have hlt := List.sizeOf_lt_of_mem hx
                  have hsz : sizeOf (RayObj.dict k (RayObj.list es)) ≤ n + 1 := h
                  simp_arith at hsz
                  omega)
                simpa [dict_vals] using hl
            | vec t es => exact ⟨es.map (fun e => scalar_json (-t) e), by simp [dict_vals]⟩
            | atom t e => exact ⟨[], by simp [dict_vals]⟩
            | table tl kk vv => exact ⟨[], by simp [dict_vals]⟩
            | dict kk vv => exact ⟨[], by simp [dict_vals]⟩
            | nullObj => exact ⟨[], by simp [dict_vals]⟩
            | errObj m => exact ⟨[], by simp [dict_vals]⟩
            | other t => exact ⟨[], by simp [dict_vals]⟩
          obtain ⟨js, hjs⟩ := hvals
          refine ⟨.obj ((List.range (lenOf k)).map (fun idx =>
            (symbol_to_string (at_idx k (Int.ofNat idx)), js.getD idx .null))), ?_⟩
          rw [obj_to_json_dict, dict_row_eq, hjs, exceptBind_ok, exceptBind_ok]
      | nullObj => exact ⟨.null, by simp [obj_to_json]⟩
      | errObj m =>
          exact ⟨.obj [("error", .str (extract_error_message (some (.errObj m))))],
            by simp [obj_to_json]⟩
      | other t => exact ⟨.obj [("type", .num t)], by simp [obj_to_json]⟩

/-- Converting the members of a generic list never fails. -/
theorem obj_to_json_list_ok (es : List RayObj) : ∃ js, obj_to_json_list es = .ok js := by
  induction es with
  | nil => exact ⟨[], by simp [obj_to_json_list]⟩
  | cons o os ih =>
      obtain ⟨j, hj⟩ := obj_to_json_ok (some o)
      obtain ⟨js, hjs⟩ := ih
      exact ⟨j :: js, by rw [obj_to_json_list_cons, hj, exceptBind_ok, hjs, exceptBind_ok]⟩

/-- Converting a dict's values never fails. -/
theorem dict_vals_ok (v : RayObj) : ∃ js, dict_vals v = .ok js := by
  cases v with
  | list es => simpa [dict_vals] using obj_to_json_list_ok es
  | vec t es => exact ⟨es.map (fun e => scalar_json (-t) e), by simp [dict_vals]⟩
  | atom t e => exact ⟨[], by simp [dict_vals]⟩
  | table tl kk vv => exact ⟨[], by simp [dict_vals]⟩
  | dict kk vv => exact ⟨[], by simp [dict_vals]⟩
  | nullObj => exact ⟨[], by simp [dict_vals]⟩
  | errObj m => exact ⟨[], by simp [dict_vals]⟩
  | other t => exact ⟨[], by simp [dict_vals]⟩

/-- A dict always converts to a row. -/
theorem dict_row_ok (k v : RayObj) : ∃ r, dict_row k v = .ok r := by
  obtain ⟨js, hjs⟩ := dict_vals_ok v
  exact ⟨(List.range (lenOf k)).map (fun idx =>
      (symbol_to_string (at_idx k (Int.ofNat idx)), js.getD idx .null)),
    by rw [dict_row_eq, hjs, exceptBind_ok]⟩

/-- The generic per-index path always succeeds and yields exactly as many rows
as requested (a null element converts to JSON null, it does not fail). -/
theorem rows_generic_ok (o : RayObj) :
    ∀ k idx, ∃ rows, rows_generic o idx k = .ok rows ∧ rows.length = k := by
  intro k
  induction k with
  | zero => exact fun idx => ⟨[], rfl, rfl⟩
  | succ k ih =>
      intro idx
      obtain ⟨j, hj⟩ := obj_to_json_ok (at_idx o (Int.ofNat idx))
      obtain ⟨rows, hrows, hlen⟩ := ih (idx + 1)
      refine ⟨[("value", j)] :: rows, ?_, by simp [hlen]⟩
      simp only [rows_generic, hj, hrows, exceptBind_ok]

/-- The I64 fast path yields exactly as many rows as requested. -/
theorem fast_rows_i64_length (es : List Elem) :
    ∀ k idx, (fast_rows_i64 es idx k).length = k := by
  intro k
  induction k with
  | zero => exact fun _ => rfl
  | succ k ih => intro idx; simp [fast_rows_i64, ih]

/-- The F64 fast path yields exactly as many rows as requested. -/
theorem fast_rows_f64_length (es : List Elem) :
    ∀ k idx, (fast_rows_f64 es idx k).length = k := by
  intro k
  induction k with
  | zero => exact fun _ => rfl
  | succ k ih => intro idx; simp [fast_rows_f64, ih]

/-- One table row always assembles. -/
theorem table_cells_ok (vals : RayObj) (idx : Nat) :
    ∀ names colIdx, ∃ row, table_cells vals idx names colIdx = .ok row := by
  intro names
  induction names with
  | nil => exact fun _ => ⟨[], rfl⟩
  | cons name rest ih =>
      intro colIdx
      obtain ⟨tail, htail⟩ := ih (colIdx + 1)
      cases hcol : at_idx vals (Int.ofNat colIdx) with
      | none => exact ⟨tail, by simp only [table_cells, hcol]; exact htail⟩
      | some colVec =>
          obtain ⟨j, hj⟩ := obj_to_json_ok (at_idx colVec (Int.ofNat idx))
          refine ⟨(name, j) :: tail, ?_⟩
          simp only [table_cells, hcol, hj, htail, exceptBind_ok]

/-- The table row loop always succeeds and yields exactly as many rows as the
clamped count. -/
theorem table_rows_from_ok (vals : RayObj) (names : List String) :
    ∀ k idx, ∃ rows, table_rows_from vals names idx k = .ok rows ∧ rows.length = k := by
  intro k
  induction k with
  | zero => exact fun _ => ⟨[], rfl, rfl⟩
  | succ k ih =>
      intro idx
      obtain ⟨row, hrow⟩ := table_cells_ok vals idx names 0
      obtain ⟨rows, hrows, hlen⟩ := ih (idx + 1)
      refine ⟨row :: rows, ?_, by simp [hlen]⟩
      simp only [table_rows_from, hrow, hrows, exceptBind_ok]

/-- A key removed from the handle table is no longer found. -/
theorem tblLookup_remove_self (k : Nat) (t : List (Nat × RayObj)) :
    tblLookup k (tblRemove k t) = none := by
  induction t with
  | nil => rfl
  | cons kv rest ih =>
      by_cases hk : kv.1 = k
      · simpa [tblRemove, hk] using ih
      · simpa [tblRemove, tblLookup, hk] using ih

/-- The integer scalar arm produces exactly the fast path's integer JSON. -/
theorem scalar_json_i64 (e : Elem) : scalar_json (-5) e = .num (payloadBits e) := by
  simp [scalar_json]

/-- The float scalar arm produces exactly the fast path's float JSON. -/
theorem scalar_json_f64 (e : Elem) : scalar_json (-10) e = .fnum (payloadBits e) := by
  simp [scalar_json]

/-- On an I64 vector, the generic per-index path computes exactly the direct
buffer reads of the fast path, whenever the window stays in range. -/
theorem rows_generic_eq_fast_i64 (es : List Elem) :
    ∀ k idx, idx + k ≤ es.length →
      rows_generic (.vec 5 es) idx k = .ok (fast_rows_i64 es idx k) := by
  intro k
  induction k with
  | zero => exact fun _ _ => rfl
  | succ k ih =>
      intro idx h
      have hidx : idx < es.length := by omega
      have hrec := ih (idx + 1) (by omega)
      simp only [rows_generic, obj_to_json_at_idx_vec 5 es idx hidx, hrec, exceptBind_ok,
        fast_rows_i64, scalar_json_i64]

/-- On an F64 vector, the generic per-index path computes exactly the direct
buffer reads of the fast path, whenever the window stays in range. -/
theorem rows_generic_eq_fast_f64 (es : List Elem) :
    ∀ k idx, idx + k ≤ es.length →
      rows_generic (.vec 10 es) idx k = .ok (fast_rows_f64 es idx k) := by
  intro k
  induction k with
  | zero => exact fun _ _ => rfl
  | succ k ih =>
      intro idx h
      have hidx : idx < es.length := by omega
      have hrec := ih (idx + 1) (by omega)
      simp only [rows_generic, obj_to_json_at_idx_vec 10 es idx hidx, hrec, exceptBind_ok,
        fast_rows_f64, scalar_json_f64]

/-- Unfolding lemma: GetRows on a scalar handle produces its single row only
at offset 0. -/
theorem get_rows_impl_scalar (handle start count : Nat)
    (handles : List (Nat × RayObj)) (t : Int) (e : Elem)
    (hl : tblLookup handle handles = some (.atom t e)) (ht : t < 0) :
    get_rows_impl handle start count handles =
      if start > 0 then .ok [] else .ok [[("value", scalar_json t e)]] := by
  simp only [get_rows_impl, hl, typeOf]
  rw [if_pos ht]
  simp only [obj_to_json_atom, exceptBind_ok]

/-- Unfolding lemma: GetRows on a vector or list handle goes through the
vector arm. -/
theorem get_rows_impl_vec (handle start count : Nat)
    (handles : List (Nat × RayObj)) (t : Int) (es : List Elem)
    (hl : tblLookup handle handles = some (.vec t es)) (hvt : 0 ≤ t ∧ t ≤ 12) :
    get_rows_impl handle start count handles = vec_rows (.vec t es) t start count := by
  simp only [get_rows_impl, hl, typeOf]
  rw [if_neg (by omega), if_pos hvt]

/-- Unfolding lemma: GetRows on a generic-list handle (tag 0) goes through the
vector arm with tag 0. -/
theorem get_rows_impl_list (handle start count : Nat)
    (handles : List (Nat × RayObj)) (es : List RayObj)
    (hl : tblLookup handle handles = some (.list es)) :
    get_rows_impl handle start count handles = vec_rows (.list es) 0 start count := by
  simp only [get_rows_impl, hl, typeOf]
  rw [if_neg (by omega), if_pos (by omega)]

/-- Unfolding lemma: GetRows on a table handle goes through `get_table_rows`. -/
theorem get_rows_impl_table (handle start count : Nat)
    (handles : List (Nat × RayObj)) (tl : Int) (k v : RayObj)
    (hl : tblLookup handle handles = some (.table tl k v)) :
    get_rows_impl handle start count handles =
      get_table_rows (.table tl k v) start count := by
  simp only [get_rows_impl, hl, typeOf]
  rw [if_neg (by omega), if_neg (by omega), if_pos trivial]

/-- Unfolding lemma: GetRows on a dict handle produces its single synthetic
row only at offset 0. -/
theorem get_rows_impl_dict (handle start count : Nat)
    (handles : List (Nat × RayObj)) (k v : RayObj)
    (hl : tblLookup handle handles = some (.dict k v)) :
    get_rows_impl handle start count handles =
      if start > 0 then .ok []
      else (dict_row k v) >>= (fun row => .ok [row]) := by
  simp only [get_rows_impl, hl, typeOf]
  rw [if_neg (by omega), if_neg (by omega), if_neg (by omega), if_pos trivial]
  simp only [dict_to_row, ray_key, ray_value]

/-- Metadata extraction never fails and stamps the handle it was given. -/
theorem extract_query_meta_ok (handle : Nat) (o : RayObj) :
    ∃ meta, extract_query_meta handle o = .ok meta ∧ meta.handle = handle := by
  exact ⟨_, rfl, rfl⟩

/-- Every run of `execute_query_impl` either fails without touching the table
or the counter, or succeeds issuing exactly the current `next_handle` and
advancing the counter by one (mod 2⁶⁴). -/
theorem execute_query_impl_next (code : String) (res : Option RayObj)
    (handles : List (Nat × RayObj)) (next : Nat) :
    (∃ e d, execute_query_impl code res handles next = (.error e, handles, next, d)) ∨
    (∃ meta hh, execute_query_impl code res handles next =
        (.ok meta, hh, (next + 1) % 2 ^ 64, []) ∧ meta.handle = next) := by
  by_cases hnul : hasNul code
  · exact .inl ⟨"Invalid query string: nul byte found", [],
      by simp [execute_query_impl, hnul]⟩
  · cases res with
    | none => exact .inl ⟨"Query returned null", [], by simp [execute_query_impl, hnul]⟩
    | some o =>
        by_cases herr : typeOf o = 127
        · exact .inl ⟨extract_error_message (some o), [o],
            by simp [execute_query_impl, hnul, herr]⟩
        · obtain ⟨meta, hm, hh⟩ := extract_query_meta_ok next o
          refine .inr ⟨meta, tblInsert next o handles, ?_, hh⟩
          simp [execute_query_impl, hnul, herr, hm]

/-- Unfolding lemma: the worker loop on a non-Shutdown command. -/
theorem runLoop_cons (s : WorkerState) (c : RayCmd) (cs : List RayCmd)
    (hc : c ≠ RayCmd.shutdown) :
    runLoop s (c :: cs) =
      ((runLoop (step s c).1 cs).1,
       (step s c).2.toList ++ (runLoop (step s c).1 cs).2) := by
  cases c with
  | execute qid code res => rfl
  | getRows hdl st cnt => rfl
  | release hdl => rfl
  | cancel qid => rfl
  | shutdown => exact absurd rfl hc

/-- Unfolding lemma: GetRows answers from the table without touching state. -/
theorem step_getRows (s : WorkerState) (hdl st cnt : Nat) :
    step s (.getRows hdl st cnt) =
      (s, some (.rows (get_rows_impl hdl st cnt s.handles))) := rfl

/-- Unfolding lemma: Cancel records the id. -/
theorem step_cancel (s : WorkerState) (qid : String) :
    step s (.cancel qid) = ({ s with cancelled := setInsert qid s.cancelled }, none) := rfl

/-- Unfolding lemma: Release on a live handle drops it. -/
theorem step_release_some (s : WorkerState) (hdl : Nat) (o : RayObj)
    (hlook : tblLookup hdl s.handles = some o) :
    step s (.release hdl) =
      ({ s with handles := tblRemove hdl s.handles, released := s.released ++ [o] },
       none) := by
  simp [step, hlook]

/-- Unfolding lemma: Release on an absent handle is a no-op. -/
theorem step_release_none (s : WorkerState) (hdl : Nat)
    (hlook : tblLookup hdl s.handles = none) :
    step s (.release hdl) = (s, none) := by
  simp [step, hlook]

/-- Unfolding lemma: Execute of a cancelled id consumes the cancellation. -/
theorem step_execute_cancelled (s : WorkerState) (qid code : String) (res : Option RayObj)
    (hc : s.cancelled.contains qid = true) :
    step s (.execute qid code res) =
      ({ s with cancelled := s.cancelled.erase qid },
       some (.queryResult (.error "Query cancelled"))) := by
  simp only [step, hc]
  rfl

/-- Unfolding lemma: Execute of a non-cancelled id runs the evaluation path. -/
theorem step_execute_run (s : WorkerState) (qid code : String) (res : Option RayObj)
    (hc : s.cancelled.contains qid = false) :
    step s (.execute qid code res) =
      ({ s with handles := (execute_query_impl code res s.handles s.nextHandle).2.1,
                nextHandle := (execute_query_impl code res s.handles s.nextHandle).2.2.1,
                released :=
                  s.released ++ (execute_query_impl code res s.handles s.nextHandle).2.2.2 },
       some (.queryResult (execute_query_impl code res s.handles s.nextHandle).1)) := by
  simp only [step, hc]
  rfl

/-- Responses that are not successful Execute results issue no handle. -/
theorem handlesIssued_cons_rows (r : Except String (List Row)) (rs : List RayResp) :
    handlesIssued (.rows r :: rs) = handlesIssued rs := rfl

/-- Failed Execute responses issue no handle. -/
theorem handlesIssued_cons_err (e : String) (rs : List RayResp) :
    handlesIssued (.queryResult (.error e) :: rs) = handlesIssued rs := rfl

/-- A successful Execute response issues its metadata's handle. -/
theorem handlesIssued_cons_ok (meta : QueryMeta) (rs : List RayResp) :
    handlesIssued (.queryResult (.ok meta) :: rs) = meta.handle :: handlesIssued rs := rfl

/-- Invariant behind the handle-id claim: starting from a counter that cannot
wrap within the remaining Execute commands, the handles issued over a run form
the contiguous block starting at the current counter value. -/
theorem handlesIssued_range (cs : List RayCmd) :
    ∀ s : WorkerState, s.nextHandle + countExecutes cs ≤ 2 ^ 64 →
      ∃ k, k ≤ countExecutes cs ∧
        handlesIssued (runLoop s cs).2 = List.range' s.nextHandle k := by
  induction cs with
  | nil => exact fun s _ => ⟨0, Nat.le_refl 0, by simp [runLoop, handlesIssued]⟩
  | cons c cs ih =>
      intro s h
      cases c with
      | shutdown => exact ⟨0, Nat.zero_le _, by simp [runLoop, handlesIssued]⟩
      | getRows hdl st cnt =>
          obtain ⟨k, hk, hik⟩ := ih s h
          refine ⟨k, hk, ?_⟩
          rw [runLoop_cons s _ cs (by intro hcon; exact RayCmd.noConfusion hcon),
            step_getRows]
          simpa [Option.toList, handlesIssued_cons_rows] using hik
      | cancel qid =>
          obtain ⟨k, hk, hik⟩ :=
            ih { s with cancelled := setInsert qid s.cancelled } h
          refine ⟨k, hk, ?_⟩
          rw [runLoop_cons s _ cs (by intro hcon; exact RayCmd.noConfusion hcon),
            step_cancel]
          simpa [Option.toList] using hik
      | release hdl =>
          cases hlook : tblLookup hdl s.handles with
          | some o =>
              obtain ⟨k, hk, hik⟩ :=
                ih { s with handles := tblRemove hdl s.handles,
                            released := s.released ++ [o] } h
              refine ⟨k, hk, ?_⟩
              rw [runLoop_cons s _ cs (by intro hcon; exact RayCmd.noConfusion hcon),
                step_release_some s hdl o hlook]
              simpa [Option.toList] using hik
          | none =>
              obtain ⟨k, hk, hik⟩ := ih s h
              refine ⟨k, hk, ?_⟩
              rw [runLoop_cons s _ cs (by intro hcon; exact RayCmd.noConfusion hcon),
                step_release_none s hdl hlook]
              simpa [Option.toList] using hik
      | execute qid code res =>
          have hcnt : countExecutes (RayCmd.execute qid code res :: cs) =
              countExecutes cs + 1 := rfl
          have h1 : s.nextHandle + (countExecutes cs + 1) ≤ 2 ^ 64 := h
          by_cases hc : s.cancelled.contains qid
          · obtain ⟨k, hk, hik⟩ :=
              ih { s with cancelled := s.cancelled.erase qid }
                (show s.nextHandle + countExecutes cs ≤ 2 ^ 64 by omega)
            refine ⟨k, by omega, ?_⟩
            rw [runLoop_cons s _ cs (by intro hcon; exact RayCmd.noConfusion hcon),
              step_execute_cancelled s qid code res hc]
            simpa [Option.toList, handlesIssued_cons_err] using hik
          · rw [Bool.not_eq_true] at hc
            rcases execute_query_impl_next code res s.handles s.nextHandle with
              ⟨e, d, heq⟩ | ⟨meta, hh, heq, hhandle⟩
            · obtain ⟨k, hk, hik⟩ :=
                ih { s with handles := s.handles, nextHandle := s.nextHandle,
                            released := s.released ++ d }
                  (show s.nextHandle + countExecutes cs ≤ 2 ^ 64 by omega)
              refine ⟨k, by omega, ?_⟩
              rw [runLoop_cons s _ cs (by intro hcon; exact RayCmd.noConfusion hcon),
                step_execute_run s qid code res hc, heq]
              simpa [Option.toList, handlesIssued_cons_err, heq] using hik
            · by_cases hlt : s.nextHandle + 1 < 2 ^ 64
              · have hmod : (s.nextHandle + 1) % 2 ^ 64 = s.nextHandle + 1 :=
                  Nat.mod_eq_of_lt hlt
                obtain ⟨k, hk, hik⟩ :=
                  ih { s with handles := hh,
                              nextHandle := (s.nextHandle + 1) % 2 ^ 64,
                              released := s.released ++ [] }
                    (show (s.nextHandle + 1) % 2 ^ 64 + countExecutes cs ≤ 2 ^ 64 by
                      rw [hmod]; omega)
                have hik2 : handlesIssued (runLoop
                      { s with handles := hh,
                               nextHandle := (s.nextHandle + 1) % 2 ^ 64,
                               released := s.released ++ [] } cs).2 =
                    List.range' ((s.nextHandle + 1) % 2 ^ 64) k := hik
                nth_rewrite 2 [hmod] at hik2
                refine ⟨k + 1, by omega, ?_⟩
                rw [runLoop_cons s _ cs (by intro hcon; exact RayCmd.noConfusion hcon),
                  step_execute_run s qid code res hc, heq, List.range'_succ]
                show handlesIssued (RayResp.queryResult (Except.ok meta) ::
                    (runLoop
                      { s with handles := hh,
                               nextHandle := (s.nextHandle + 1) % 2 ^ 64,
                               released := s.released ++ [] } cs).2) =
                  s.nextHandle :: List.range' (s.nextHandle + 1) k
                rw [handlesIssued_cons_ok, hhandle, hik2]
              · have h2 : s.nextHandle + 1 = 2 ^ 64 := by omega
                have hcs0 : countExecutes cs = 0 := by omega
                have hmod : (s.nextHandle + 1) % 2 ^ 64 = 0 := by
                  rw [h2, Nat.mod_self]
                obtain ⟨k, hk, hik⟩ :=
                  ih { s with handles := hh,
                              nextHandle := (s.nextHandle + 1) % 2 ^ 64,
                              released := s.released ++ [] }
                    (show (s.nextHandle + 1) % 2 ^ 64 + countExecutes cs ≤ 2 ^ 64 by
                      rw [hmod, hcs0]; omega)
                have hk0 : k = 0 := by omega
                subst hk0
                have hik2 : handlesIssued (runLoop
                      { s with handles := hh,
                               nextHandle := (s.nextHandle + 1) % 2 ^ 64,
                               released := s.released ++ [] } cs).2 = [] := by
                  have h3 : handlesIssued (runLoop
                      { s with handles := hh,
                               nextHandle := (s.nextHandle + 1) % 2 ^ 64,
                               released := s.released ++ [] } cs).2 =
                      List.range' ((s.nextHandle + 1) % 2 ^ 64) 0 := hik
                  rw [List.range'_zero] at h3
                  exact h3
                refine ⟨1, by omega, ?_⟩
                rw [runLoop_cons s _ cs (by intro hcon; exact RayCmd.noConfusion hcon),
                  step_execute_run s qid code res hc, heq]
                show handlesIssued (RayResp.queryResult (Except.ok meta) ::
                    (runLoop
                      { s with handles := hh,
                               nextHandle := (s.nextHandle + 1) % 2 ^ 64,
                               released := s.released ++ [] } cs).2) =
                  List.range' s.nextHandle 1
                rw [handlesIssued_cons_ok, hhandle, hik2, List.range'_one]



/-- Claim C2: for every Execute processed while its query id is in the
worker's Cancelled set, the id is removed from the set, the call responds
Cancelled, no evaluation is performed (the outcome is independent of the
engine's reply), and no handle is allocated (the handle table and the
next-handle counter are untouched). -/
theorem execute_cancelled_no_eval (s : WorkerState) (qid code : String)
    (evalResult : Option RayObj) (h : s.cancelled.contains qid = true) :
    step s (.execute qid code evalResult) =
      ({ s with cancelled := s.cancelled.erase qid },
       some (.queryResult (.error "Query cancelled"))) :=
  step_execute_cancelled s qid code evalResult h

/-- Claim C2, witness: a worker with "q7" cancelled answers an Execute of
"q7" with Cancelled, removing the id and leaving the table and counter
alone. -/
theorem execute_cancelled_no_eval_witness :
    (({ handles := [], nextHandle := 1, cancelled := ["q7"], released := [],
        engineDown := false } : WorkerState).cancelled.contains "q7" = true) ∧
    step { handles := [], nextHandle := 1, cancelled := ["q7"], released := [],
           engineDown := false }
        (.execute "q7" "(til 10)" (some (.vec 5 [.i 0]))) =
      ({ handles := [], nextHandle := 1, cancelled := (["q7"] : List String).erase "q7",
         released := [], engineDown := false },
       some (.queryResult (.error "Query cancelled"))) := by
  refine ⟨by decide, ?_⟩
  exact execute_cancelled_no_eval _ "q7" "(til 10)" (some (.vec 5 [.i 0])) (by decide)

/-- Claim C6: when the worker processes Shutdown (commands queued after it are
never answered) or its command channel closes, every handle still present in
the table is released exactly once (the drop trace is extended by exactly the
table's values), the engine runtime is torn down, and no engine-owned value
remains in the table afterwards. -/
theorem shutdown_releases_all_handles (s : WorkerState) (rest : List RayCmd) :
    runLoop s (.shutdown :: rest) = (finalizeWorker s, []) ∧
    runLoop s [] = (finalizeWorker s, []) ∧
    (finalizeWorker s).handles = [] ∧
    (finalizeWorker s).released = s.released ++ s.handles.map Prod.snd ∧
    (finalizeWorker s).engineDown = true :=
  ⟨rfl, rfl, rfl, rfl, rfl⟩

/-- Claim C7: `start()` is idempotent while the bridge is Running (a second
call returns with the state unchanged), and a start attempted after the
command receiver was already taken and the bridge shut down fails fast with
the `expect` panic instead of silently spawning a worker without a
receiver. -/
theorem start_idempotent_fail_fast :
    (∀ b : BridgeState, b.running = true → startStep b = (b, .noop)) ∧
    (startStep (shutdownStep (startStep initBridge).1)).2 = .panicked := by
  constructor
  · intro b hb
    simp [startStep, hb]
  · rfl

/-- Claim C7, witness: a running bridge's second `start()` is a no-op. -/
theorem start_idempotent_fail_fast_witness :
    ({ running := true, rxTaken := true } : BridgeState).running = true ∧
    startStep { running := true, rxTaken := true } =
      ({ running := true, rxTaken := true }, .noop) :=
  ⟨rfl, start_idempotent_fail_fast.1 { running := true, rxTaken := true } rfl⟩

/-- Claim C8 (code bug): the Result Materializer does not decode a
symbol-tagged atomic value.  For the symbol atom whose interned text is
"name" (intern id 0), `symbol_to_string` (and hence `obj_to_json` and
column/field-name extraction) produces the placeholder "col_0" — the source's
own comment says "For now, use a simple index-based name" — whereas the
specified decoding of the interned buffer yields "name". -/
theorem symbol_atom_not_decoded :
    symbol_to_string (some (.atom (-6) (.s 0 "name"))) = "col_0" ∧
    obj_to_json (some (.atom (-6) (.s 0 "name"))) = .ok (.str "col_0") ∧
    spec_symbol_decode (.s 0 "name") = "name" ∧
    ("col_0" : String) ≠ "name" := by
  refine ⟨rfl, ?_, rfl, by decide⟩
  rw [obj_to_json_atom]
  rfl

/-- Claim C9: on a vector held value, for every window, the direct
element-buffer fast path used for the primitive numeric element tags (I64,
tag 5, and F64, tag 10) and the generic per-index `at_idx` lookup path
produce identical JSON rows for identical input. -/
theorem vector_fast_path_matches_generic (es : List Elem) (start count : Nat) :
    vec_rows (.vec 5 es) 5 start count =
      rows_generic (.vec 5 es) start (min count (es.length - start)) ∧
    vec_rows (.vec 10 es) 10 start count =
      rows_generic (.vec 10 es) start (min count (es.length - start)) := by
  constructor
  · have hv : vec_rows (.vec 5 es) 5 start count =
        .ok (fast_rows_i64 es start (min count (es.length - start))) := by
      simp [vec_rows, elemsOf, lenOf]
    rw [hv]
    by_cases hle : start ≤ es.length
    · rw [rows_generic_eq_fast_i64 es (min count (es.length - start)) start (by omega)]
    · have h0 : min count (es.length - start) = 0 := by omega
      rw [h0]
      rfl
  · have hv : vec_rows (.vec 10 es) 10 start count =
        .ok (fast_rows_f64 es start (min count (es.length - start))) := by
      simp [vec_rows, elemsOf, lenOf]
    rw [hv]
    by_cases hle : start ≤ es.length
    · rw [rows_generic_eq_fast_f64 es (min count (es.length - start)) start (by omega)]
    · have h0 : min count (es.length - start) = 0 := by omega
      rw [h0]
      rfl

/-- Claim C10: processing a GetRows command never modifies worker-side state:
for every handle, start and count, the handle table, the next-handle counter
and the cancelled set are unchanged afterwards, whether the call succeeds or
fails. -/
theorem getRows_preserves_state (s : WorkerState) (handle start count : Nat) :
    (step s (.getRows handle start count)).1 = s ∧
    (step s (.getRows handle start count)).1.handles = s.handles ∧
    (step s (.getRows handle start count)).1.nextHandle = s.nextHandle ∧
    (step s (.getRows handle start count)).1.cancelled = s.cancelled :=
  ⟨rfl, rfl, rfl, rfl⟩

/-- Claim C3: handle ids issued by the worker form a strictly increasing
sequence starting at 1 — the issued handles over any run from the initial
state are exactly `[1, …, k]`, so any later successful Execute's handle is
strictly greater than any earlier one's and no handle value is issued twice.
The hypothesis excludes wrap-around of the u64 counter, which cannot occur
within one worker lifetime (it would take 2⁶⁴ Execute commands). -/
theorem handle_ids_strictly_increasing (cs : List RayCmd)
    (h : countExecutes cs < 2 ^ 64) :
    ∃ k, handlesIssued (runLoop initState cs).2 = List.range' 1 k ∧
      (handlesIssued (runLoop initState cs).2).Pairwise (· < ·) ∧
      (handlesIssued (runLoop initState cs).2).Nodup := by
  obtain ⟨k, hk, hik⟩ := handlesIssued_range cs initState
    (show 1 + countExecutes cs ≤ 2 ^ 64 by omega)
  have hik1 : handlesIssued (runLoop initState cs).2 = List.range' 1 k := hik
  refine ⟨k, hik1, ?_, ?_⟩
  · rw [hik1]
    exact List.pairwise_lt_range' 1 k
  · rw [hik1]
    exact List.nodup_range' 1 k

/-- Claim C3, witness: a two-Execute trace issues the handles [1, 2]. -/
theorem handle_ids_strictly_increasing_witness :
    countExecutes [RayCmd.execute "a" "(+ 1 1)" (some (.atom (-5) (.i 2))),
                   RayCmd.execute "b" "(+ 2 2)" (some (.atom (-5) (.i 4)))] < 2 ^ 64 ∧
    ∃ k, handlesIssued (runLoop initState
          [RayCmd.execute "a" "(+ 1 1)" (some (.atom (-5) (.i 2))),
           RayCmd.execute "b" "(+ 2 2)" (some (.atom (-5) (.i 4)))]).2 =
        List.range' 1 k ∧
      (handlesIssued (runLoop initState
          [RayCmd.execute "a" "(+ 1 1)" (some (.atom (-5) (.i 2))),
           RayCmd.execute "b" "(+ 2 2)" (some (.atom (-5) (.i 4)))]).2).Pairwise (· < ·) ∧
      (handlesIssued (runLoop initState
          [RayCmd.execute "a" "(+ 1 1)" (some (.atom (-5) (.i 2))),
           RayCmd.execute "b" "(+ 2 2)" (some (.atom (-5) (.i 4)))]).2).Nodup :=
  ⟨by decide, handle_ids_strictly_increasing _ (by decide)⟩

/-- Claim C4: when an Execute's evaluation yields an error-tagged value, a
human-readable message is extracted best-effort (decoded from the error's
"msg" field when it is a c8 string, falling back to the generic
"Query execution error" otherwise), the error value is dropped exactly once,
the call responds with an error, and no handle is allocated and no entry is
added to the handle table. -/
theorem execute_error_releases_once (code : String) (m : RayObj)
    (handles : List (Nat × RayObj)) (next : Nat) (h : hasNul code = false) :
    execute_query_impl code (some (.errObj m)) handles next =
      (.error (extract_error_message (some (.errObj m))), handles, next, [.errObj m]) ∧
    (typeOf m = 12 → extract_error_message (some (.errObj m)) = symbol_to_string (some m)) ∧
    (typeOf m ≠ 12 → extract_error_message (some (.errObj m)) = "Query execution error") := by
  refine ⟨?_, ?_, ?_⟩
  · simp [execute_query_impl, h, typeOf]
  · intro hm
    simp [extract_error_message, at_sym, hm]
  · intro hm
    simp [extract_error_message, at_sym, hm]

/-- Claim C4, witness: an error value whose "msg" field is not a string is
reported with the generic message, dropped once, and no handle appears. -/
theorem execute_error_releases_once_witness :
    hasNul "(bad)" = false ∧
    execute_query_impl "(bad)" (some (.errObj (.atom (-5) (.i 0)))) [] 1 =
      (.error "Query execution error", [], 1, [.errObj (.atom (-5) (.i 0))]) := by
  have h := execute_error_releases_once "(bad)" (.atom (-5) (.i 0)) [] 1 (by decide)
  refine ⟨by decide, ?_⟩
  rw [h.1, h.2.2 (by decide)]

/-- Claim C5: Release removes the handle from the table and frees its value
exactly once; releasing an absent handle (including a second release of the
same handle) is a no-op, not an error; and after a Release every subsequent
GetRows on that handle fails with Invalid handle. -/
theorem release_semantics (s : WorkerState) (handle : Nat) :
    (∀ o, tblLookup handle s.handles = some o →
        step s (.release handle) =
          ({ s with handles := tblRemove handle s.handles,
                    released := s.released ++ [o] }, none)) ∧
    (tblLookup handle s.handles = none → step s (.release handle) = (s, none)) ∧
    (∀ start count,
        get_rows_impl handle start count (step s (.release handle)).1.handles =
          .error ("Invalid handle: " ++ toString handle)) := by
  refine ⟨?_, ?_, ?_⟩
  · intro o ho
    exact step_release_some s handle o ho
  · intro ho
    exact step_release_none s handle ho
  · intro start count
    cases ho : tblLookup handle s.handles with
    | some o =>
        rw [step_release_some s handle o ho]
        show get_rows_impl handle start count (tblRemove handle s.handles) = _
        simp [get_rows_impl, tblLookup_remove_self]
    | none =>
        rw [step_release_none s handle ho]
        show get_rows_impl handle start count s.handles = _
        simp [get_rows_impl, ho]

/-- Claim C5, witness: releasing live handle 1 drops its value once and a
following GetRows on 1 fails with Invalid handle. -/
theorem release_semantics_witness :
    tblLookup 1 [(1, RayObj.atom (-5) (.i 9))] = some (RayObj.atom (-5) (.i 9)) ∧
    step { handles := [(1, RayObj.atom (-5) (.i 9))], nextHandle := 2, cancelled := [],
           released := [], engineDown := false } (.release 1) =
      ({ handles := tblRemove 1 [(1, RayObj.atom (-5) (.i 9))], nextHandle := 2,
         cancelled := [], released := [RayObj.atom (-5) (.i 9)], engineDown := false },
       none) ∧
    get_rows_impl 1 0 5
        (step { handles := [(1, RayObj.atom (-5) (.i 9))], nextHandle := 2, cancelled := [],
                released := [], engineDown := false } (.release 1)).1.handles =
      .error ("Invalid handle: " ++ toString 1) := by
  refine ⟨rfl, ?_, ?_⟩
  · exact (release_semantics _ 1).1 _ rfl
  · exact (release_semantics _ 1).2.2 0 5

/-- Claim C1, counterexample: the clamp rule `min(count, L − start)` fails on
a scalar handle with `count = 0`.  The scalar arm of `get_rows_impl` ignores
`count`: GetRows(h, 0, 0) on a held scalar (L = 1, start = 0 < L) returns one
row, not `min(0, 1 − 0) = 0` rows.  The dict arm ignores `count` the same
way. -/
theorem getRows_scalar_count_zero :
    get_rows_impl 1 0 0 [(1, RayObj.atom (-5) (.i 42))] =
      .ok [[("value", Json.num 42)]] ∧
    ([[("value", Json.num 42)]] : List Row).length ≠ min 0 (1 - 0) := by
  constructor
  · rw [get_rows_impl_scalar 1 0 0 [(1, RayObj.atom (-5) (.i 42))] (-5) (.i 42) rfl
      (by omega)]
    rw [if_neg (by omega), scalar_json_i64]
    rfl
  · decide

/-- Claim C1, amended: for every live handle, GetRows is clamped per the held
value's shape and an out-of-range start never produces an error.  For a
vector, a list, or a table whose first value column is a vector or list of
length L, exactly `min(count, L − start)` rows are returned (0 when
`start ≥ L`); for a scalar or a dict, exactly one row is returned when
`start = 0` and none when `start ≥ 1`, independently of `count`. -/
theorem getRows_clamped_row_count (handles : List (Nat × RayObj))
    (handle start count n : Nat) (o : RayObj)
    (hl : tblLookup handle handles = some o)
    (hn : amended_row_count o start count = some n) :
    ∃ rows, get_rows_impl handle start count handles = .ok rows ∧ rows.length = n := by
  cases o with
  | atom t e =>
      simp only [amended_row_count] at hn
      by_cases ht : t < 0
      · rw [if_pos ht] at hn
        have hn2 : (if start = 0 then 1 else 0) = n := Option.some.inj hn
        rw [get_rows_impl_scalar handle start count handles t e hl ht]
        by_cases hs : start > 0
        · rw [if_pos hs]
          exact ⟨[], rfl, by rw [← hn2, if_neg (by omega)]; rfl⟩
        · rw [if_neg hs]
          exact ⟨[[("value", scalar_json t e)]], rfl,
            by rw [← hn2, if_pos (by omega)]; rfl⟩
      · rw [if_neg ht] at hn
        cases hn
  | vec t es =>
      simp only [amended_row_count] at hn
      by_cases hvt : 0 ≤ t ∧ t ≤ 12
      · rw [if_pos hvt] at hn
        have hn2 : min count (es.length - start) = n := Option.some.inj hn
        rw [get_rows_impl_vec handle start count handles t es hl hvt]
        by_cases ht5 : t = 5
        · subst ht5
          refine ⟨fast_rows_i64 es start (min count (es.length - start)), ?_, ?_⟩
          · simp [vec_rows, elemsOf, lenOf]
          · rw [fast_rows_i64_length]
            exact hn2
        · by_cases ht10 : t = 10
          · subst ht10
            refine ⟨fast_rows_f64 es start (min count (es.length - start)), ?_, ?_⟩
            · simp [vec_rows, elemsOf, lenOf, ht5]
            · rw [fast_rows_f64_length]
              exact hn2
          · obtain ⟨rows, hr, hlen⟩ :=
              rows_generic_ok (.vec t es) (min count (es.length - start)) start
            refine ⟨rows, ?_, by rw [hlen]; exact hn2⟩
            rw [show vec_rows (.vec t es) t start count =
                rows_generic (.vec t es) start (min count (es.length - start)) from
              by simp [vec_rows, lenOf, ht5, ht10]]
            exact hr
      · rw [if_neg hvt] at hn
        cases hn
  | list es =>
      simp only [amended_row_count] at hn
      have hn2 : min count (es.length - start) = n := Option.some.inj hn
      rw [get_rows_impl_list handle start count handles es hl]
      obtain ⟨rows, hr, hlen⟩ :=
        rows_generic_ok (.list es) (min count (es.length - start)) start
      refine ⟨rows, ?_, by rw [hlen]; exact hn2⟩
      rw [show vec_rows (.list es) 0 start count =
          rows_generic (.list es) start (min count (es.length - start)) from
        by norm_num [vec_rows, lenOf]]
      exact hr
  | table tl k v =>
      simp only [amended_row_count] at hn
      rw [get_rows_impl_table handle start count handles tl k v hl]
      cases hfc : at_idx v 0 with
      | none =>
          simp only [hfc] at hn
          have hn0 : (0 : Nat) = n := Option.some.inj hn
          refine ⟨[], ?_, hn0 ▸ rfl⟩
          simp [get_table_rows, ray_key, ray_value, hfc]
      | some fc =>
          simp only [hfc] at hn
          by_cases hft : 0 ≤ typeOf fc ∧ typeOf fc ≤ 12
          · rw [if_pos hft] at hn
            have hn2 : min count (lenOf fc - start) = n := Option.some.inj hn
            obtain ⟨rows, hr, hlen⟩ := table_rows_from_ok v
              ((List.range (lenOf k)).map
                (fun idx => symbol_to_string (at_idx k (Int.ofNat idx))))
              (min count (lenOf fc - start)) start
            refine ⟨rows, ?_, by rw [hlen]; exact hn2⟩
            simp only [get_table_rows, ray_key, ray_value, hfc]
            exact hr
          · rw [if_neg hft] at hn
            cases hn
  | dict k v =>
      simp only [amended_row_count] at hn
      have hn2 : (if start = 0 then 1 else 0) = n := Option.some.inj hn
      rw [get_rows_impl_dict handle start count handles k v hl]
      by_cases hs : start > 0
      · rw [if_pos hs]
        exact ⟨[], rfl, by rw [← hn2, if_neg (by omega)]; rfl⟩
      · rw [if_neg hs]
        obtain ⟨r, hr⟩ := dict_row_ok k v
        refine ⟨[r], ?_, by rw [← hn2, if_pos (by omega)]; rfl⟩
        rw [hr, exceptBind_ok]
  | nullObj =>
      simp only [amended_row_count] at hn
      cases hn
  | errObj m =>
      simp only [amended_row_count] at hn
      cases hn
  | other t =>
      simp only [amended_row_count] at hn
      cases hn

/-- Claim C1, witness: on a live 3-element I64 vector, GetRows(1, 1, 5)
returns exactly `min(5, 3 − 1) = 2` rows. -/
theorem getRows_clamped_row_count_witness :
    tblLookup 1 [(1, RayObj.vec 5 [Elem.i 3, Elem.i 4, Elem.i 5])] =
      some (RayObj.vec 5 [Elem.i 3, Elem.i 4, Elem.i 5]) ∧
    amended_row_count (RayObj.vec 5 [Elem.i 3, Elem.i 4, Elem.i 5]) 1 5 = some 2 ∧
    ∃ rows, get_rows_impl 1 1 5 [(1, RayObj.vec 5 [Elem.i 3, Elem.i 4, Elem.i 5])] =
        .ok rows ∧ rows.length = 2 := by
  refine ⟨rfl, by decide, ?_⟩
  exact getRows_clamped_row_count _ 1 1 5 2 _ rfl (by decide)

end Raylens
